import Mathlib

/-!
Verification of the typed encode/decode, mock-encryption, builder and
decryption-authorization layer of the fhevm-react-template repository.

The embedding follows `packages/fhevm-sdk/src/utils/encryption.ts` and the
decryption utilities of `examples/nextjs-example/src/lib/fhe/client.ts`.
Byte buffers (`Uint8Array`) are `List Nat` with elements below 256; JS
`number` values are `ℚ` (so that `Number.isInteger` is expressible), JS
`bigint` values are `ℤ`, and fallible operations return `Except String`.
The `ethers` helpers the code calls (`getAddress`, `isAddress`,
`hexlify`, `getBytes`) are embedded in full, including the EIP-55
checksum and the keccak-256 hash it requires.
-/

namespace Fhevm

/-! ### Hex characters and byte/hex conversions (model of ethers hexlify/getBytes) -/

/-- Numeric value of a hex digit character, if it is one
(conditions written on ASCII code points: 0-9, a-f, A-F). -/
def hexCharVal (c : Char) : Option Nat :=
  if 48 ≤ c.toNat ∧ c.toNat ≤ 57 then some (c.toNat - 48)
  else if 97 ≤ c.toNat ∧ c.toNat ≤ 102 then some (c.toNat - 87)
  else if 65 ≤ c.toNat ∧ c.toNat ≤ 70 then some (c.toNat - 55)
  else none

/-- Whether a character is a hex digit. -/
def isHexChar (c : Char) : Bool := (hexCharVal c).isSome

/-- Lowercase hex digit character for a nibble value (ASCII 48-57, 87+10-15). -/
def hexDigit (n : Nat) : Char :=
  Char.ofNat (if n < 10 then 48 + n else 87 + n)

/-- The two lowercase hex characters of one byte. -/
def byteHex (b : Nat) : List Char := [hexDigit (b / 16 % 16), hexDigit (b % 16)]

/-- Model of `ethers.hexlify`: 0x-prefixed lowercase hex string of a byte buffer. -/
def hexlify (bs : List Nat) : String :=
  "0x" ++ String.mk (bs.flatMap byteHex)

/-- Parse an even-length run of hex characters into bytes. -/
def hexPairsToBytes : List Char → Option (List Nat)
  | [] => some []
  | c1 :: c2 :: rest => do
      let h ← hexCharVal c1
      let l ← hexCharVal c2
      let tl ← hexPairsToBytes rest
      pure ((16 * h + l) :: tl)
  | [_] => none

/-- Model of `ethers.getBytes`: requires a 0x-prefixed even-length hex string. -/
def ethersGetBytes (s : String) : Except String (List Nat) :=
  match s.data with
  | '0' :: 'x' :: rest =>
      match hexPairsToBytes rest with
      | some bs => .ok bs
      | none => .error "invalid BytesLike value"
  | _ => .error "invalid BytesLike value"

/-! ### Keccak-256 (as used by ethers for the EIP-55 address checksum) -/

/-- 64-bit left rotation on `Nat` values below 2^64. -/
def rotl64 (x n : Nat) : Nat :=
  ((x <<< n) ||| (x >>> (64 - n))) &&& 0xFFFFFFFFFFFFFFFF

/-- Keccak round constants. -/
def keccakRC : List Nat :=
  [0x0000000000000001, 0x0000000000008082, 0x800000000000808a, 0x8000000080008000,
   0x000000000000808b, 0x0000000080000001, 0x8000000080008081, 0x8000000000008009,
   0x000000000000008a, 0x0000000000000088, 0x0000000080008009, 0x000000008000000a,
   0x000000008000808b, 0x800000000000008b, 0x8000000000008089, 0x8000000000008003,
   0x8000000000008002, 0x8000000000000080, 0x000000000000800a, 0x800000008000000a,
   0x8000000080008081, 0x8000000000008080, 0x0000000080000001, 0x8000000080008008]

/-- Keccak rho rotation offsets, row by row (y fixed); lane (x, y) is read at
index x + 5y of the flattened table. -/
def keccakRotRows : List (List Nat) :=
  [[0, 1, 62, 28, 27],
   [36, 44, 6, 55, 20],
   [3, 10, 43, 25, 39],
   [41, 45, 15, 21, 8],
   [18, 2, 61, 56, 14]]

/-- The flattened rho offset table. -/
def keccakRot : List Nat := keccakRotRows.flatten

/-- One keccak-f[1600] round on a 25-lane state. -/
def keccakRound (st : List Nat) (rc : Nat) : List Nat :=
  let A : Nat → Nat := fun i => st.getD i 0
  let C : Nat → Nat := fun x => A x ^^^ A (x + 5) ^^^ A (x + 10) ^^^ A (x + 15) ^^^ A (x + 20)
  let D : Nat → Nat := fun x => C ((x + 4) % 5) ^^^ rotl64 (C ((x + 1) % 5)) 1
  let A2 : Nat → Nat := fun i => A i ^^^ D (i % 5)
  let B : Nat → Nat := fun j =>
    let y := j % 5
    let x := (3 * (j / 5) + j % 5) % 5
    rotl64 (A2 (x + 5 * y)) (keccakRot.getD (x + 5 * y) 0)
  let A3 : Nat → Nat := fun j =>
    let x := j % 5
    let y := j / 5
    B j ^^^ ((0xFFFFFFFFFFFFFFFF ^^^ B ((x + 1) % 5 + 5 * y)) &&& B ((x + 2) % 5 + 5 * y))
  (List.range 25).map fun j => if j = 0 then A3 0 ^^^ rc else A3 j

/-- The full keccak-f[1600] permutation. -/
def keccakF (st : List Nat) : List Nat := keccakRC.foldl keccakRound st

/-- Little-endian 64-bit lane from up to 8 bytes. -/
def laneOfBytes (bs : List Nat) : Nat := bs.foldr (fun b acc => b + (acc <<< 8)) 0

/-- XOR a 136-byte rate block into the state and permute. -/
def absorbBlock (st block : List Nat) : List Nat :=
  let lanes := (List.range 17).map fun i => laneOfBytes ((block.drop (8 * i)).take 8)
  keccakF ((List.range 25).map fun j => st.getD j 0 ^^^ (if j < 17 then lanes.getD j 0 else 0))

/-- Absorb all 136-byte blocks of a padded message (fuel-driven recursion). -/
def absorbChunks : Nat → List Nat → List Nat → List Nat
  | 0, st, _ => st
  | Nat.succ f, st, msg =>
      if msg.isEmpty then st
      else absorbChunks f (absorbBlock st (msg.take 136)) (msg.drop 136)

/-- Keccak pad10*1 with domain byte 0x01, rate 136. -/
def keccakPadded (msg : List Nat) : List Nat :=
  let padLen := 136 - msg.length % 136
  if padLen = 1 then msg ++ [0x81]
  else msg ++ [0x01] ++ List.replicate (padLen - 2) 0 ++ [0x80]

/-- Keccak-256 of a byte list, as a 32-byte list. -/
def keccak256 (msg : List Nat) : List Nat :=
  let p := keccakPadded msg
  let st := absorbChunks p.length (List.replicate 25 0) p
  (List.range 32).map fun i => (st.getD (i / 8) 0 >>> (8 * (i % 8))) &&& 255

/-! ### ethers address utilities: getAddress (EIP-55 checksum) and isAddress -/

/-- ASCII uppercase of a lowercase letter, identity otherwise (JS toUpperCase on one char). -/
def charUp (c : Char) : Char :=
  if 97 ≤ c.toNat ∧ c.toNat ≤ 122 then Char.ofNat (c.toNat - 32) else c

/-- ASCII lowercase of an uppercase letter, identity otherwise (JS toLowerCase on one char). -/
def charLow (c : Char) : Char :=
  if 65 ≤ c.toNat ∧ c.toNat ≤ 90 then Char.ofNat (c.toNat + 32) else c

/-- Model of JS String.toLowerCase for the ASCII strings this code handles. -/
def lowerStr (s : String) : String := String.mk (s.data.map charLow)

/-- EIP-55 checksum casing of a 40-character lowercase hex address body:
a character is uppercased when the corresponding nibble of the keccak-256
hash of the body's ASCII bytes is at least 8 (ethers getChecksumAddress). -/
def checksumBody (lower : List Char) : List Char :=
  let hash := keccak256 (lower.map Char.toNat)
  let nibbles := hash.flatMap fun b => [b / 16 % 16, b % 16]
  (lower.zip (nibbles.take 40)).map fun p => if 8 ≤ p.2 then charUp p.1 else p.1

/-- The address body: the characters after an optional 0x prefix. -/
def addrBody (s : String) : List Char :=
  if s.data.take 2 = ['0', 'x'] then s.data.drop 2 else s.data

/-- Model of `ethers.getAddress` (v6) restricted to plain hex addresses: the
input must be 40 hex characters with an optional 0x prefix; a mixed-case body
must match its EIP-55 checksum casing; the checksummed 0x-prefixed address is
returned. (The ICAP branch of ethers is never reached by this repository.) -/
def getAddress (s : String) : Except String String :=
  let body := addrBody s
  if body.length = 40 ∧ body.all isHexChar then
    let result := checksumBody (body.map charLow)
    if (body.any fun c => 65 ≤ c.toNat ∧ c.toNat ≤ 70) ∧
        (body.any fun c => 97 ≤ c.toNat ∧ c.toNat ≤ 102) ∧ result ≠ body then
      .error "bad address checksum"
    else .ok ("0x" ++ String.mk result)
  else .error "invalid address"

/-- Model of `ethers.isAddress`: true when getAddress succeeds. -/
def isAddress (s : String) : Bool := (getAddress s).isOk

/-! ### Typed values and validators (encryption.ts) -/

/-- The `EncryptedType` union of encryption.ts. -/
inductive EncryptedType where
  | uint8
  | uint16
  | uint32
  | uint64
  | address
  | bool
  deriving DecidableEq, Repr

/-- A JS runtime value as passed to valueToBytes: a `number` (ℚ, so that
Number.isInteger is expressible), a `bigint` (ℤ), a `boolean`, or a `string`. -/
inductive JsValue where
  | num (q : ℚ)
  | big (i : ℤ)
  | boolean (b : Bool)
  | str (s : String)
  deriving DecidableEq, Repr

/-- Model of JS Number.isInteger for finite numbers. -/
def jsIsInteger (q : ℚ) : Bool := q.den = 1

/-- The natural number a validated nonnegative integral ℚ denotes. -/
def ratToNat (q : ℚ) : Nat := q.num.toNat

/-- validateUint8 of encryption.ts. -/
def validateUint8 (value : ℚ) : Except String Unit :=
  if ¬ jsIsInteger value ∨ value < 0 ∨ 255 < value then
    .error "Value must be an integer between 0 and 255 for uint8"
  else .ok ()

/-- validateUint16 of encryption.ts. -/
def validateUint16 (value : ℚ) : Except String Unit :=
  if ¬ jsIsInteger value ∨ value < 0 ∨ 65535 < value then
    .error "Value must be an integer between 0 and 65535 for uint16"
  else .ok ()

/-- validateUint32 of encryption.ts. -/
def validateUint32 (value : ℚ) : Except String Unit :=
  if ¬ jsIsInteger value ∨ value < 0 ∨ 4294967295 < value then
    .error "Value must be an integer between 0 and 2^32-1 for uint32"
  else .ok ()

/-- validateUint64 of encryption.ts (the argument is a bigint). -/
def validateUint64 (value : ℤ) : Except String Unit :=
  if value < 0 ∨ 18446744073709551615 < value then
    .error "Value must be between 0 and 2^64-1 for uint64"
  else .ok ()

/-- validateAddress of encryption.ts, lifted to runtime values:
ethers.isAddress of a non-string is false. -/
def validateAddress (v : JsValue) : Except String Unit :=
  match v with
  | .str s => if isAddress s then .ok () else .error "Invalid Ethereum address format"
  | _ => .error "Invalid Ethereum address format"

/-- Little-endian bytes of a validated uint16 (DataView.setUint16 LE). -/
def uint16Bytes (n : Nat) : List Nat := [n % 256, n / 256 % 256]

/-- Little-endian bytes of a validated uint32 (DataView.setUint32 LE). -/
def uint32Bytes (n : Nat) : List Nat :=
  [n % 256, n / 256 % 256, n / 65536 % 256, n / 16777216 % 256]

/-- Little-endian bytes of a validated uint64 (DataView.setBigUint64 LE). -/
def uint64Bytes (n : Nat) : List Nat :=
  [n % 256, n / 256 % 256, n / 65536 % 256, n / 16777216 % 256,
   n / 4294967296 % 256, n / 1099511627776 % 256,
   n / 281474976710656 % 256, n / 72057594037927936 % 256]

/-- valueToBytes of encryption.ts. In each numeric branch a runtime value of
the wrong JS type fails exactly as the source does: Number.isInteger of a
non-number is false, and a non-bigint reaching the uint64 branch fails either
the bigint comparison or DataView.setBigUint64; both are error outcomes. -/
def valueToBytes (value : JsValue) (type : EncryptedType) : Except String (List Nat) :=
  match type with
  | .uint8 =>
      match value with
      | .num q => do
          validateUint8 q
          .ok [ratToNat q]
      | _ => .error "Value must be an integer between 0 and 255 for uint8"
  | .uint16 =>
      match value with
      | .num q => do
          validateUint16 q
          .ok (uint16Bytes (ratToNat q))
      | _ => .error "Value must be an integer between 0 and 65535 for uint16"
  | .uint32 =>
      match value with
      | .num q => do
          validateUint32 q
          .ok (uint32Bytes (ratToNat q))
      | _ => .error "Value must be an integer between 0 and 2^32-1 for uint32"
  | .uint64 =>
      match value with
      | .big i => do
          validateUint64 i
          .ok (uint64Bytes i.toNat)
      | _ => .error "Value must be between 0 and 2^64-1 for uint64"
  | .bool =>
      match value with
      | .boolean b => .ok [if b then 1 else 0]
      | _ => .error "Value must be a boolean"
  | .address => do
      validateAddress value
      match value with
      | .str s =>
          match getAddress s with
          | .ok normalized => ethersGetBytes normalized
          | .error e => .error e
      | _ => .error "Invalid Ethereum address format"

/-! ### Mock encryptor and encrypted-input builder (encryption.ts) -/

/-- Result of an encryption operation (EncryptionResult of encryption.ts). -/
structure EncryptionResult where
  data : List Nat
  proof : List Nat
  type : EncryptedType
  handles : Option (List String) := none
  inputProof : Option (List Nat) := none
  deriving DecidableEq, Repr

/-- generateMockProof of encryption.ts: 64 bytes with
proof[i] = combined[i mod combined.length] XOR (i AND 0xFF), where
combined = valueBytes ++ publicKey. -/
def generateMockProof (valueBytes publicKey : List Nat) : List Nat :=
  let combined := valueBytes ++ publicKey
  (List.range 64).map fun i => combined.getD (i % combined.length) 0 ^^^ (i &&& 0xFF)

/-- mockEncrypt of encryption.ts: data is the public key followed by the
encoded value; the proof is generateMockProof of those components. -/
def mockEncrypt (value : JsValue) (type : EncryptedType) (publicKey : List Nat) :
    Except String EncryptionResult := do
  let valueBytes ← valueToBytes value type
  .ok { data := publicKey ++ valueBytes
        proof := generateMockProof valueBytes publicKey
        type := type }

/-- State of an EncryptedInputBuilder object of encryption.ts. -/
structure EncryptedInputBuilder where
  inputs : List (JsValue × EncryptedType)
  publicKey : List Nat
  contractAddress : String
  userAddress : String
  deriving DecidableEq, Repr

namespace EncryptedInputBuilder

/-- The constructor: the inputs accumulator starts empty. -/
def mk0 (publicKey : List Nat) (contractAddress userAddress : String) :
    EncryptedInputBuilder :=
  { inputs := [], publicKey, contractAddress, userAddress }

/-- add8 of encryption.ts. -/
def add8 (b : EncryptedInputBuilder) (value : ℚ) : EncryptedInputBuilder :=
  { b with inputs := b.inputs ++ [(.num value, .uint8)] }

/-- add16 of encryption.ts. -/
def add16 (b : EncryptedInputBuilder) (value : ℚ) : EncryptedInputBuilder :=
  { b with inputs := b.inputs ++ [(.num value, .uint16)] }

/-- add32 of encryption.ts. -/
def add32 (b : EncryptedInputBuilder) (value : ℚ) : EncryptedInputBuilder :=
  { b with inputs := b.inputs ++ [(.num value, .uint32)] }

/-- add64 of encryption.ts. -/
def add64 (b : EncryptedInputBuilder) (value : ℤ) : EncryptedInputBuilder :=
  { b with inputs := b.inputs ++ [(.big value, .uint64)] }

/-- addBool of encryption.ts. -/
def addBool (b : EncryptedInputBuilder) (value : Bool) : EncryptedInputBuilder :=
  { b with inputs := b.inputs ++ [(.boolean value, .bool)] }

/-- addAddress of encryption.ts. -/
def addAddress (b : EncryptedInputBuilder) (value : String) : EncryptedInputBuilder :=
  { b with inputs := b.inputs ++ [(.str value, .address)] }

/-- encrypt of encryption.ts: fails on an empty accumulator, otherwise
mock-encrypts each input in insertion order, hexlifies each data as a handle,
and concatenates the proofs into the combined input proof. The method reads
this.inputs and writes no field, so the builder state after a call is the
state before it. -/
def encrypt (b : EncryptedInputBuilder) : Except String EncryptionResult :=
  match b.inputs with
  | [] => .error "No inputs to encrypt"
  | (_, t0) :: _ => do
      let rs ← b.inputs.mapM fun p => mockEncrypt p.1 p.2 b.publicKey
      let handles := rs.map fun r => hexlify r.data
      let inputProof := rs.flatMap fun r => r.proof
      .ok { data := []
            proof := inputProof
            type := t0
            handles := some handles
            inputProof := some inputProof }

end EncryptedInputBuilder

/-! ### Decode side (decryption utilities of the nextjs example) -/

/-- bytesToUint8 of the decryption utilities. -/
def bytesToUint8 (bytes : List Nat) : Except String ℚ :=
  if bytes.length < 1 then .error "Insufficient bytes for uint8"
  else .ok (bytes.getD 0 0 : ℚ)

/-- bytesToUint16 of the decryption utilities (little-endian). -/
def bytesToUint16 (bytes : List Nat) : Except String ℚ :=
  if bytes.length < 2 then .error "Insufficient bytes for uint16"
  else .ok ((bytes.getD 0 0 + 256 * bytes.getD 1 0 : ℕ) : ℚ)

/-- bytesToUint32 of the decryption utilities (little-endian). -/
def bytesToUint32 (bytes : List Nat) : Except String ℚ :=
  if bytes.length < 4 then .error "Insufficient bytes for uint32"
  else .ok ((bytes.getD 0 0 + 256 * bytes.getD 1 0 + 65536 * bytes.getD 2 0 +
      16777216 * bytes.getD 3 0 : ℕ) : ℚ)

/-- bytesToUint64 of the decryption utilities (little-endian, returns bigint). -/
def bytesToUint64 (bytes : List Nat) : Except String ℤ :=
  if bytes.length < 8 then .error "Insufficient bytes for uint64"
  else .ok ((bytes.getD 0 0 + 256 * bytes.getD 1 0 + 65536 * bytes.getD 2 0 +
      16777216 * bytes.getD 3 0 + 4294967296 * bytes.getD 4 0 +
      1099511627776 * bytes.getD 5 0 + 281474976710656 * bytes.getD 6 0 +
      72057594037927936 * bytes.getD 7 0 : ℕ) : ℤ)

/-- bytesToBool of the decryption utilities: bytes[0] !== 0. -/
def bytesToBool (bytes : List Nat) : Except String Bool :=
  if bytes.length < 1 then .error "Insufficient bytes for bool"
  else .ok (bytes.getD 0 0 != 0)

/-- bytesToAddress of the decryption utilities: checksummed address of the
first 20 bytes. -/
def bytesToAddress (bytes : List Nat) : Except String String :=
  if bytes.length < 20 then .error "Insufficient bytes for address"
  else getAddress (hexlify (bytes.take 20))

/-- extractValueBytes of the decryption utilities: drops the public-key
prefix, requiring the data to be strictly longer than it. -/
def extractValueBytes (encryptedData : List Nat) (publicKeyLength : Nat := 32) :
    Except String (List Nat) :=
  if encryptedData.length ≤ publicKeyLength then .error "Encrypted data too short"
  else .ok (encryptedData.drop publicKeyLength)

/-- A handle argument: a Uint8Array or a hex string. -/
inductive EncHandle where
  | bytes (b : List Nat)
  | hexStr (s : String)
  deriving DecidableEq, Repr

/-- mockDecrypt of the decryption utilities. -/
def mockDecrypt (encryptedData : EncHandle) (type : EncryptedType)
    (publicKeyLength : Nat := 32) : Except String JsValue := do
  let data ← match encryptedData with
    | .hexStr s => ethersGetBytes s
    | .bytes b => .ok b
  let valueBytes ← extractValueBytes data publicKeyLength
  match type with
  | .uint8 => JsValue.num <$> bytesToUint8 valueBytes
  | .uint16 => JsValue.num <$> bytesToUint16 valueBytes
  | .uint32 => JsValue.num <$> bytesToUint32 valueBytes
  | .uint64 => JsValue.big <$> bytesToUint64 valueBytes
  | .bool => JsValue.boolean <$> bytesToBool valueBytes
  | .address => JsValue.str <$> bytesToAddress valueBytes

/-- batchDecrypt of the decryption utilities: parallel handle and type lists
of equal length, each decoded independently in order; JS Array.map propagates
the first thrown error, which the Except mapM mirrors. -/
def batchDecrypt (handles : List EncHandle) (types : List EncryptedType)
    (publicKeyLength : Nat := 32) : Except String (List JsValue) :=
  if handles.length ≠ types.length then
    .error "Handles and types arrays must have same length"
  else
    (handles.zip types).mapM fun p => mockDecrypt p.1 p.2 publicKeyLength

/-! ### Decryption authorization (EIP-712 signing and verification) -/

/-- Modelled from the spec: the structured data that ethers signTypedData
hashes for this code — the EIP-712 domain (name, version, chainId,
verifyingContract) together with the DecryptionAuth message fields. The
hashing and ECDSA machinery live in the ethers library, outside this
repository; the payload is kept as explicit data, which models the hash as
injective. -/
structure Eip712Payload where
  name : String
  version : String
  chainId : Nat
  verifyingContract : String
  handle : String
  contractAddress : String
  userAddress : String
  deriving DecidableEq, Repr

/-- Modelled from the spec: a signature string as the decryption utilities
treat it. A string produced by ethers signTypedData determines the signed
payload digest and the signing address (`eip712`); any other string is
`garbage`, on which ethers verifyTypedData throws. -/
inductive MockSig where
  | eip712 (payload : Eip712Payload) (signer : String)
  | garbage (s : String)
  deriving DecidableEq, Repr

/-- A decryption request of the decryption utilities. The signature field
holds the abstract signature value modelled above. -/
structure DecryptionRequest where
  handle : EncHandle
  contractAddress : String
  userAddress : String
  signature : Option MockSig := none
  deriving DecidableEq, Repr

/-- A signer as createDecryptionSignature consumes it: an address, and the
chain id its provider reports (none when it has no provider). -/
structure MockSigner where
  address : String
  providerChainId : Option Nat := none

/-- The string placed in the DecryptionAuth message for the handle: the
handle itself when it is a string, else its hexlification. -/
def handleString (h : EncHandle) : String :=
  match h with
  | .hexStr s => s
  | .bytes b => hexlify b

/-- The EIP-712 payload this code builds for a request at a given chain id. -/
def requestPayload (request : DecryptionRequest) (chainId : Nat) : Eip712Payload :=
  { name := "FHEVM Decryption"
    version := "1"
    chainId := chainId
    verifyingContract := request.contractAddress
    handle := handleString request.handle
    contractAddress := request.contractAddress
    userAddress := request.userAddress }

/-- A 40-hex-digit address-shaped string from a number below 2^160. -/
def natToHex40 (n : Nat) : String :=
  "0x" ++ String.mk (((List.range 40).map fun i => hexDigit (n / 16 ^ (39 - i) % 16)))

/-- A simple deterministic fold of a string into a number below 2^160. -/
def foldHash (s : String) : Nat :=
  s.data.foldl (fun a c => (a * 31 + c.toNat) % (2 ^ 160)) 7

/-- Modelled from the spec: ECDSA recovery applied to a signature over a
digest different from the expected one yields a well-defined address that is
not the original signer; represented by a deterministic address-shaped
function of the signed payload and signer. -/
def altRecover (p : Eip712Payload) (signer : String) : String :=
  natToHex40 (foldHash (p.name ++ "|" ++ p.version ++ "|" ++ toString p.chainId ++ "|" ++
    p.verifyingContract ++ "|" ++ p.handle ++ "|" ++ p.contractAddress ++ "|" ++
    p.userAddress ++ "|" ++ signer))

/-- Modelled from the spec: ethers verifyTypedData — recover the signer
address of a signature against the expected structured data, throwing on a
malformed signature string. -/
def mockVerifyTypedData (expected : Eip712Payload) (sig : MockSig) : Except String String :=
  match sig with
  | .garbage _ => .error "invalid signature string"
  | .eip712 p a => .ok (if p = expected then a else altRecover p a)

/-- createDecryptionSignature of the decryption utilities: signs the EIP-712
payload whose chain id is the one the signer's provider reports, defaulting
to 1 when there is no provider or it reports a falsy chain id. -/
def createDecryptionSignature (request : DecryptionRequest) (signer : MockSigner) : MockSig :=
  let chainId := match signer.providerChainId with
    | none => 1
    | some c => if c = 0 then 1 else c
  .eip712 (requestPayload request chainId) signer.address

/-- verifyDecryptionSignature of the decryption utilities: false when the
signature is absent; otherwise recover the signer of the payload rebuilt
with the hardcoded chain id 1 and compare it case-insensitively with the
expected signer, catching any recovery error as false. -/
def verifyDecryptionSignature (request : DecryptionRequest) (expectedSigner : String) : Bool :=
  match request.signature with
  | none => false
  | some sig =>
      match mockVerifyTypedData (requestPayload request 1) sig with
      | .error _ => false
      | .ok recovered => lowerStr recovered == lowerStr expectedSigner

/-- Calling encrypt twice in sequence on one builder object: the method
writes no field of the object, so the second call receives the same state. -/
def encryptTwice (b : EncryptedInputBuilder) : Except String EncryptionResult := do
  let _ ← b.encrypt
  b.encrypt

/-- The canonical (lowercase) hex character with the same value as a hex
character. -/
def hexCanon (c : Char) : Char := hexDigit ((hexCharVal c).getD 0)

/-- All hex digit characters: the digits, then a-f, then A-F. -/
def hexChars : List Char :=
  (List.range 10).map (fun n => Char.ofNat (48 + n)) ++
    (List.range 6).map (fun n => Char.ofNat (97 + n)) ++
    (List.range 6).map (fun n => Char.ofNat (65 + n))

/-! ## Infrastructure lemmas -/

theorem charToNatInj {a b : Char} (h : a.toNat = b.toNat) : a = b := Char.ext (UInt32.ext h)

theorem char_eq_iff_toNat {c d : Char} : c = d ↔ c.toNat = d.toNat :=
  ⟨fun h => h ▸ rfl, charToNatInj⟩

theorem mem_hexChars {c : Char} (h : isHexChar c = true) : c ∈ hexChars := by
  unfold isHexChar hexCharVal at h
  unfold hexChars
  split at h
  · next h1 =>
    obtain ⟨ha, hb⟩ := h1
    have hd : c ∈ (List.range 10).map (fun n => Char.ofNat (48 + n)) :=
      List.mem_map.mpr ⟨c.toNat - 48, List.mem_range.mpr (by omega),
        by rw [show 48 + (c.toNat - 48) = c.toNat by omega]; exact Char.ofNat_toNat c⟩
    exact List.mem_append.mpr (Or.inl (List.mem_append.mpr (Or.inl hd)))
  · split at h
    · next h1 =>
      obtain ⟨ha, hb⟩ := h1
      have hd : c ∈ (List.range 6).map (fun n => Char.ofNat (97 + n)) :=
        List.mem_map.mpr ⟨c.toNat - 97, List.mem_range.mpr (by omega),
          by rw [show 97 + (c.toNat - 97) = c.toNat by omega]; exact Char.ofNat_toNat c⟩
      exact List.mem_append.mpr (Or.inl (List.mem_append.mpr (Or.inr hd)))
    · split at h
      · next h1 =>
        obtain ⟨ha, hb⟩ := h1
        have hd : c ∈ (List.range 6).map (fun n => Char.ofNat (65 + n)) :=
          List.mem_map.mpr ⟨c.toNat - 65, List.mem_range.mpr (by omega),
            by rw [show 65 + (c.toNat - 65) = c.toNat by omega]; exact Char.ofNat_toNat c⟩
        exact List.mem_append.mpr (Or.inr hd)
      · simp at h

theorem isHexChar_of_mem : ∀ c ∈ hexChars, isHexChar c = true := by decide

theorem charLow_mem_hexChars : ∀ c ∈ hexChars, charLow c ∈ hexChars := by decide

theorem charUp_mem_hexChars : ∀ c ∈ hexChars, charUp c ∈ hexChars := by decide

theorem hexCharVal_getD_lt : ∀ c ∈ hexChars, (hexCharVal c).getD 0 < 16 := by decide

theorem hexCharVal_isSome : ∀ c ∈ hexChars, (hexCharVal c).isSome = true := by decide

theorem hexCanon_charUp : ∀ c ∈ hexChars, hexCanon (charUp c) = hexCanon c := by decide

theorem hexCanon_charLow : ∀ c ∈ hexChars, hexCanon (charLow c) = charLow c := by decide

theorem charLow_not_upper :
    ∀ c ∈ hexChars, ¬(65 ≤ (charLow c).toNat ∧ (charLow c).toNat ≤ 70) := by decide

theorem hexDigit_facts : ∀ v < 16, isHexChar (hexDigit v) = true ∧
    hexCharVal (hexDigit v) = some v ∧
    ¬(65 ≤ (hexDigit v).toNat ∧ (hexDigit v).toNat ≤ 70) ∧
    hexCanon (hexDigit v) = hexDigit v ∧ charLow (hexDigit v) = hexDigit v := by decide

theorem byteHex_pair {h l : Nat} (hh : h < 16) (hl : l < 16) :
    byteHex (16 * h + l) = [hexDigit h, hexDigit l] := by
  have e1 : (16 * h + l) / 16 % 16 = h := by omega
  have e2 : (16 * h + l) % 16 = l := by omega
  simp [byteHex, e1, e2]

/-- Parsing an even run of hex characters succeeds, and hexlifying the bytes
back gives the canonical lowercase form of the characters. -/
theorem hexPairs_spec : ∀ cs : List Char, (∀ c ∈ cs, isHexChar c = true) →
    cs.length % 2 = 0 →
    ∃ bs, hexPairsToBytes cs = some bs ∧ bs.length = cs.length / 2 ∧
      bs.flatMap byteHex = cs.map hexCanon ∧ ∀ b ∈ bs, b < 256 := by
  intro cs
  induction cs using hexPairsToBytes.induct with
  | case1 =>
    intro _ _
    exact ⟨[], rfl, rfl, rfl, by simp⟩
  | case2 c1 c2 rest ih =>
    intro hhex hlen
    have m1 : c1 ∈ hexChars := mem_hexChars (hhex c1 (by simp))
    have m2 : c2 ∈ hexChars := mem_hexChars (hhex c2 (by simp))
    obtain ⟨v1, hv1⟩ := Option.isSome_iff_exists.mp (hexCharVal_isSome c1 m1)
    obtain ⟨v2, hv2⟩ := Option.isSome_iff_exists.mp (hexCharVal_isSome c2 m2)
    have l1 : v1 < 16 := by have := hexCharVal_getD_lt c1 m1; rwa [hv1] at this
    have l2 : v2 < 16 := by have := hexCharVal_getD_lt c2 m2; rwa [hv2] at this
    obtain ⟨bs, hbs, hlen2, hflat, hlt⟩ := ih
      (fun c hc => hhex c (by simp [hc])) (by simp at hlen ⊢; omega)
    refine ⟨(16 * v1 + v2) :: bs, ?_, ?_, ?_, ?_⟩
    · simp [hexPairsToBytes, hv1, hv2, hbs]
    · simp [hlen2]; omega
    · simp only [List.flatMap_cons, List.map_cons, hflat,
        byteHex_pair l1 l2, hexCanon, hv1, hv2]
      rfl
    · intro b hb
      rcases List.mem_cons.mp hb with h | h
      · omega
      · exact hlt b h
  | case3 c =>
    intro _ hlen
    simp at hlen

theorem canonical_fix :
    ∀ c ∈ hexChars, hexCanon c = c →
      charLow c = c ∧ ¬(65 ≤ c.toNat ∧ c.toNat ≤ 70) := by decide

theorem keccak256_length (msg : List Nat) : (keccak256 msg).length = 32 := by
  simp [keccak256]

theorem length_nibbles (l : List Nat) :
    (l.flatMap fun b => [b / 16 % 16, b % 16]).length = 2 * l.length := by
  induction l with
  | nil => simp
  | cons a t ih => simp [ih]; omega

theorem checksumBody_length {lb : List Char} (h : lb.length = 40) :
    (checksumBody lb).length = 40 := by
  simp only [checksumBody]
  rw [List.length_map, List.length_zip, List.length_take, length_nibbles,
    keccak256_length, h]
  omega

theorem checksumBody_chars {lb : List Char} :
    ∀ c' ∈ checksumBody lb, ∃ c ∈ lb, c' = charUp c ∨ c' = c := by
  intro c' hc'
  simp only [checksumBody, List.mem_map] at hc'
  obtain ⟨⟨c, nib⟩, hp, he⟩ := hc'
  refine ⟨c, (List.of_mem_zip hp).1, ?_⟩
  by_cases h8 : 8 ≤ nib
  · left; rw [← he]; simp [h8]
  · right; rw [← he]; simp [h8]

/-- getAddress on a 0x-prefixed string of 40 canonical lowercase hex digits
succeeds and returns the checksummed form. -/
theorem getAddress_of_canonical {ls : List Char} (hlen : ls.length = 40)
    (hmem : ∀ c ∈ ls, c ∈ hexChars) (hcanon : ∀ c ∈ ls, hexCanon c = c) :
    getAddress ("0x" ++ String.mk ls) = .ok ("0x" ++ String.mk (checksumBody ls)) := by
  have hfix : ∀ c ∈ ls, charLow c = c ∧ ¬(65 ≤ c.toNat ∧ c.toNat ≤ 70) :=
    fun c hc => canonical_fix c (hmem c hc) (hcanon c hc)
  have hbody : addrBody ("0x" ++ String.mk ls) = ls := by
    have hdata : ("0x" ++ String.mk ls).data = '0' :: 'x' :: ls := rfl
    simp [addrBody, hdata]
  have hmap : ls.map charLow = ls := by
    rw [List.map_congr_left fun c hc => (hfix c hc).1]
    exact List.map_id' ls
  have hcond : ls.length = 40 ∧ ls.all isHexChar := by
    exact ⟨hlen, List.all_eq_true.mpr fun c hc => isHexChar_of_mem c (hmem c hc)⟩
  have hany : (ls.any fun c => 65 ≤ c.toNat ∧ c.toNat ≤ 70) = false := by
    rw [List.any_eq_false]
    intro c hc
    simpa using (hfix c hc).2
  unfold getAddress
  rw [hbody, if_pos hcond, hmap, if_neg]
  intro ⟨h1, _⟩
  rw [hany] at h1
  exact Bool.false_ne_true h1

/-- A successful getAddress pins the body shape and the returned string. -/
theorem getAddress_ok_struct {s : String} (h : isAddress s = true) :
    (addrBody s).length = 40 ∧ (∀ c ∈ addrBody s, isHexChar c = true) ∧
    getAddress s = .ok ("0x" ++ String.mk (checksumBody ((addrBody s).map charLow))) := by
  unfold isAddress getAddress at h
  by_cases h1 : (addrBody s).length = 40 ∧ (addrBody s).all isHexChar
  · rw [if_pos h1] at h
    by_cases h2 : ((addrBody s).any fun c => 65 ≤ c.toNat ∧ c.toNat ≤ 70) ∧
        ((addrBody s).any fun c => 97 ≤ c.toNat ∧ c.toNat ≤ 102) ∧
        checksumBody ((addrBody s).map charLow) ≠ addrBody s
    · rw [if_pos h2] at h
      simp [Except.isOk, Except.toBool] at h
    · refine ⟨h1.1, fun c hc => List.all_eq_true.mp h1.2 c hc, ?_⟩
      unfold getAddress
      rw [if_pos h1, if_neg h2]
  · rw [if_neg h1] at h
    simp [Except.isOk, Except.toBool] at h

theorem checksumBody_map_hexCanon {lb : List Char} (hmem : ∀ c ∈ lb, c ∈ hexChars)
    (hlen : lb.length = 40) :
    (checksumBody lb).map hexCanon = lb.map hexCanon := by
  simp only [checksumBody, List.map_map]
  have hlen2 : lb.length ≤
      (((keccak256 (lb.map Char.toNat)).flatMap fun b => [b / 16 % 16, b % 16]).take 40).length := by
    rw [List.length_take, length_nibbles, keccak256_length, hlen]
    omega
  rw [List.map_congr_left (g := fun p => hexCanon p.1) ?_]
  · rw [show (fun p : Char × Nat => hexCanon p.1) = hexCanon ∘ Prod.fst from rfl,
      ← List.map_map, List.map_fst_zip _ _ hlen2]
  · intro p hp
    have hp1 : p.1 ∈ lb := (List.of_mem_zip hp).1
    by_cases h8 : 8 ≤ p.2
    · simp only [Function.comp_apply, if_pos h8]
      exact hexCanon_charUp p.1 (hmem p.1 hp1)
    · simp only [Function.comp_apply, if_neg h8]

/-- Round trip through valueToBytes and bytesToAddress for any legal address
string: the decode returns the checksum-normalized original. -/
theorem addressRoundTrip {s : String} (h : isAddress s = true) :
    (valueToBytes (.str s) .address).bind bytesToAddress = getAddress s := by
  obtain ⟨hlen, hhex, hga⟩ := getAddress_ok_struct h
  have hmemBody : ∀ c ∈ addrBody s, c ∈ hexChars := fun c hc => mem_hexChars (hhex c hc)
  have hmemLb : ∀ c ∈ (addrBody s).map charLow, c ∈ hexChars := by
    intro c hc
    obtain ⟨d, hd, rfl⟩ := List.mem_map.mp hc
    exact charLow_mem_hexChars d (hmemBody d hd)
  have hcanonLb : ∀ c ∈ (addrBody s).map charLow, hexCanon c = c := by
    intro c hc
    obtain ⟨d, hd, rfl⟩ := List.mem_map.mp hc
    exact hexCanon_charLow d (hmemBody d hd)
  have hlenLb : ((addrBody s).map charLow).length = 40 := by rw [List.length_map, hlen]
  have hmemCb : ∀ c ∈ checksumBody ((addrBody s).map charLow), c ∈ hexChars := by
    intro c hc
    obtain ⟨d, hd, hor⟩ := checksumBody_chars c hc
    rcases hor with he | he
    · rw [he]; exact charUp_mem_hexChars d (hmemLb d hd)
    · rw [he]; exact hmemLb d hd
  have hlenCb : (checksumBody ((addrBody s).map charLow)).length = 40 :=
    checksumBody_length hlenLb
  obtain ⟨B, hB, hBlen, hBflat, _⟩ := hexPairs_spec (checksumBody ((addrBody s).map charLow))
    (fun c hc => isHexChar_of_mem c (hmemCb c hc)) (by rw [hlenCb])
  have hmapEq : (checksumBody ((addrBody s).map charLow)).map hexCanon
      = (addrBody s).map charLow := by
    rw [checksumBody_map_hexCanon hmemLb hlenLb, List.map_congr_left hcanonLb]
    exact List.map_id' _
  have hvb : valueToBytes (.str s) .address = .ok B := by
    have hva : validateAddress (.str s) = .ok () := by simp [validateAddress, h]
    have hdataCb : ("0x" ++ String.mk (checksumBody ((addrBody s).map charLow))).data
        = '0' :: 'x' :: checksumBody ((addrBody s).map charLow) := rfl
    have hge : ethersGetBytes ("0x" ++ String.mk (checksumBody ((addrBody s).map charLow)))
        = .ok B := by
      simp only [ethersGetBytes, hdataCb, hB]
    simp [valueToBytes, hva, hga, hge]
    rfl
  have hBlen20 : B.length = 20 := by rw [hBlen, hlenCb]
  have hdec : bytesToAddress B = getAddress s := by
    have htake : B.take 20 = B := List.take_of_length_le (by omega)
    have hhexB : hexlify B = "0x" ++ String.mk ((addrBody s).map charLow) := by
      unfold hexlify
      rw [hBflat, hmapEq]
    unfold bytesToAddress
    rw [if_neg (by omega), htake, hhexB,
      getAddress_of_canonical hlenLb hmemLb hcanonLb, hga]
  rw [hvb]
  exact hdec

/-! ## Numeric round-trip lemmas -/

theorem ratToNat_cast {q : ℚ} (hd : jsIsInteger q = true) (h0 : 0 ≤ q) :
    ((ratToNat q : ℕ) : ℚ) = q := by
  have hd1 : q.den = 1 := by simpa [jsIsInteger] using hd
  have h1 : (q.num : ℚ) = q := by rw [← Rat.den_eq_one_iff]; exact hd1
  have h2 : ((q.num.toNat : ℤ) : ℚ) = (q.num : ℚ) := by
    rw [Int.toNat_of_nonneg (Rat.num_nonneg.mpr h0)]
  push_cast at h2
  unfold ratToNat
  rw [h2, h1]

theorem ratToNat_le {q : ℚ} {m : ℕ} (hd : jsIsInteger q = true) (h0 : 0 ≤ q)
    (hm : q ≤ (m : ℚ)) : ratToNat q ≤ m := by
  have hc := ratToNat_cast hd h0
  have : ((ratToNat q : ℕ) : ℚ) ≤ (m : ℚ) := hc ▸ hm
  exact_mod_cast this

theorem uint8_roundtrip {q : ℚ} (hd : jsIsInteger q = true) (h0 : 0 ≤ q) (hm : q ≤ 255) :
    (valueToBytes (.num q) .uint8).bind bytesToUint8 = .ok q := by
  have hcond : ¬(¬ jsIsInteger q = true ∨ q < 0 ∨ 255 < q) := by
    push_neg
    exact ⟨hd, h0, hm⟩
  have hv : valueToBytes (.num q) .uint8 = .ok [ratToNat q] := by
    show (do validateUint8 q; Except.ok [ratToNat q] : Except String (List Nat))
      = .ok [ratToNat q]
    unfold validateUint8
    rw [if_neg hcond]
    rfl
  rw [hv]
  show bytesToUint8 [ratToNat q] = .ok q
  simp [bytesToUint8, ratToNat_cast hd h0]

theorem uint16_roundtrip {q : ℚ} (hd : jsIsInteger q = true) (h0 : 0 ≤ q) (hm : q ≤ 65535) :
    (valueToBytes (.num q) .uint16).bind bytesToUint16 = .ok q := by
  have hcond : ¬(¬ jsIsInteger q = true ∨ q < 0 ∨ 65535 < q) := by
    push_neg
    exact ⟨hd, h0, hm⟩
  have hv : valueToBytes (.num q) .uint16 = .ok (uint16Bytes (ratToNat q)) := by
    show (do validateUint16 q; Except.ok (uint16Bytes (ratToNat q)) : Except String (List Nat))
      = .ok (uint16Bytes (ratToNat q))
    unfold validateUint16
    rw [if_neg hcond]
    rfl
  have hle : ratToNat q ≤ 65535 := ratToNat_le hd h0 (by exact_mod_cast hm)
  have hsum : ratToNat q % 256 + 256 * (ratToNat q / 256 % 256) = ratToNat q := by omega
  rw [hv]
  show bytesToUint16 (uint16Bytes (ratToNat q)) = .ok q
  simp [bytesToUint16, uint16Bytes, hsum, ratToNat_cast hd h0]

theorem uint32_roundtrip {q : ℚ} (hd : jsIsInteger q = true) (h0 : 0 ≤ q)
    (hm : q ≤ 4294967295) :
    (valueToBytes (.num q) .uint32).bind bytesToUint32 = .ok q := by
  have hcond : ¬(¬ jsIsInteger q = true ∨ q < 0 ∨ 4294967295 < q) := by
    push_neg
    exact ⟨hd, h0, hm⟩
  have hv : valueToBytes (.num q) .uint32 = .ok (uint32Bytes (ratToNat q)) := by
    show (do validateUint32 q; Except.ok (uint32Bytes (ratToNat q)) : Except String (List Nat))
      = .ok (uint32Bytes (ratToNat q))
    unfold validateUint32
    rw [if_neg hcond]
    rfl
  have hle : ratToNat q ≤ 4294967295 := ratToNat_le hd h0 (by exact_mod_cast hm)
  have hsum : ratToNat q % 256 + 256 * (ratToNat q / 256 % 256) +
      65536 * (ratToNat q / 65536 % 256) + 16777216 * (ratToNat q / 16777216 % 256)
      = ratToNat q := by omega
  rw [hv]
  show bytesToUint32 (uint32Bytes (ratToNat q)) = .ok q
  simp [bytesToUint32, uint32Bytes, hsum, ratToNat_cast hd h0]

theorem uint64_roundtrip {i : ℤ} (h0 : 0 ≤ i) (hm : i ≤ 18446744073709551615) :
    (valueToBytes (.big i) .uint64).bind bytesToUint64 = .ok i := by
  have hcond : ¬(i < 0 ∨ 18446744073709551615 < i) := by
    push_neg
    exact ⟨h0, hm⟩
  have hv : valueToBytes (.big i) .uint64 = .ok (uint64Bytes i.toNat) := by
    show (do validateUint64 i; Except.ok (uint64Bytes i.toNat) : Except String (List Nat))
      = .ok (uint64Bytes i.toNat)
    unfold validateUint64
    rw [if_neg hcond]
    rfl
  have hle : i.toNat ≤ 18446744073709551615 := by omega
  have hsum : i.toNat % 256 + 256 * (i.toNat / 256 % 256) + 65536 * (i.toNat / 65536 % 256) +
      16777216 * (i.toNat / 16777216 % 256) + 4294967296 * (i.toNat / 4294967296 % 256) +
      1099511627776 * (i.toNat / 1099511627776 % 256) +
      281474976710656 * (i.toNat / 281474976710656 % 256) +
      72057594037927936 * (i.toNat / 72057594037927936 % 256) = i.toNat := by omega
  rw [hv]
  show bytesToUint64 (uint64Bytes i.toNat) = .ok i
  simp [bytesToUint64, uint64Bytes, hsum]
  omega

theorem bool_roundtrip (b : Bool) :
    (valueToBytes (.boolean b) .bool).bind bytesToBool = .ok b := by
  cases b <;> rfl

/-! ## Claim C1 -/

/-- Claim C1 (amended): decoding the encoded bytes returns the original value
exactly for uint8, uint16, uint32, uint64 and bool; for address the decode
returns the EIP-55 checksum-normalized form of the original address (the
getAddress result), which equals the original exactly when the original is
already in checksum casing. -/
theorem claim1_encode_decode_roundtrip :
    (∀ q : ℚ, jsIsInteger q = true → 0 ≤ q → q ≤ 255 →
      (valueToBytes (.num q) .uint8).bind bytesToUint8 = .ok q) ∧
    (∀ q : ℚ, jsIsInteger q = true → 0 ≤ q → q ≤ 65535 →
      (valueToBytes (.num q) .uint16).bind bytesToUint16 = .ok q) ∧
    (∀ q : ℚ, jsIsInteger q = true → 0 ≤ q → q ≤ 4294967295 →
      (valueToBytes (.num q) .uint32).bind bytesToUint32 = .ok q) ∧
    (∀ i : ℤ, 0 ≤ i → i ≤ 18446744073709551615 →
      (valueToBytes (.big i) .uint64).bind bytesToUint64 = .ok i) ∧
    (∀ b : Bool, (valueToBytes (.boolean b) .bool).bind bytesToBool = .ok b) ∧
    (∀ s : String, isAddress s = true →
      (valueToBytes (.str s) .address).bind bytesToAddress = getAddress s) ∧
    (∀ s : String, getAddress s = .ok s →
      (valueToBytes (.str s) .address).bind bytesToAddress = .ok s) := by
  refine ⟨fun q h1 h2 h3 => uint8_roundtrip h1 h2 h3,
    fun q h1 h2 h3 => uint16_roundtrip h1 h2 h3,
    fun q h1 h2 h3 => uint32_roundtrip h1 h2 h3,
    fun i h1 h2 => uint64_roundtrip h1 h2,
    bool_roundtrip, fun s h => addressRoundTrip h, fun s h => ?_⟩
  have hA : isAddress s = true := by unfold isAddress; rw [h]; rfl
  rw [addressRoundTrip hA, h]

set_option maxRecDepth 1000000 in
/-- Claim C1 as frozen fails on the code: for the legal all-lowercase address
below, decoding the encoded bytes returns the checksummed string, which
differs from the original value. -/
theorem claim1_counterexample :
    (valueToBytes (.str "0x5aaeb6053f3e94c9b9a09f33669435e7ef1beaed") .address).bind
      bytesToAddress = .ok "0x5aAeb6053F3E94C9b9A09f33669435E7Ef1BeAed" ∧
    "0x5aAeb6053F3E94C9b9A09f33669435E7Ef1BeAed" ≠
      "0x5aaeb6053f3e94c9b9a09f33669435e7ef1beaed" := by
  constructor
  · rfl
  · decide

set_option maxRecDepth 1000000 in
/-- Witness for the amended claim C1 at concrete inputs of every type. -/
theorem claim1_witness :
    (valueToBytes (.num 7) .uint8).bind bytesToUint8 = .ok 7 ∧
    (valueToBytes (.num 1000) .uint16).bind bytesToUint16 = .ok 1000 ∧
    (valueToBytes (.num 123456789) .uint32).bind bytesToUint32 = .ok 123456789 ∧
    (valueToBytes (.big 1099511627776) .uint64).bind bytesToUint64 = .ok 1099511627776 ∧
    (valueToBytes (.boolean true) .bool).bind bytesToBool = .ok true ∧
    isAddress "0x5aaeb6053f3e94c9b9a09f33669435e7ef1beaed" = true ∧
    (valueToBytes (.str "0x5aaeb6053f3e94c9b9a09f33669435e7ef1beaed") .address).bind
      bytesToAddress = getAddress "0x5aaeb6053f3e94c9b9a09f33669435e7ef1beaed" := by
  have hA : isAddress "0x5aaeb6053f3e94c9b9a09f33669435e7ef1beaed" = true := by decide
  exact ⟨claim1_encode_decode_roundtrip.1 7 (by decide) (by decide) (by decide),
    claim1_encode_decode_roundtrip.2.1 1000 (by decide) (by decide) (by decide),
    claim1_encode_decode_roundtrip.2.2.1 123456789 (by decide) (by decide) (by decide),
    claim1_encode_decode_roundtrip.2.2.2.1 1099511627776 (by decide) (by decide),
    claim1_encode_decode_roundtrip.2.2.2.2.1 true,
    hA,
    claim1_encode_decode_roundtrip.2.2.2.2.2.1 _ hA⟩

/-! ## Claim C3 -/

/-- Claim C3: for every legal (value, type) pair and a 32-byte public key,
mockEncrypt returns data equal to the public-key bytes followed by the
encoded value, and a 64-byte proof with
proof[i] = combined[i mod combined.length] XOR (i AND 0xFF), where
combined is the encoded value followed by the public-key bytes. -/
theorem claim3_mockEncrypt_shape (publicKey : List Nat) (v : JsValue) (t : EncryptedType)
    (valueBytes : List Nat) (hpk : publicKey.length = 32)
    (hv : valueToBytes v t = .ok valueBytes) :
    mockEncrypt v t publicKey = .ok { data := publicKey ++ valueBytes
                                      proof := generateMockProof valueBytes publicKey
                                      type := t } ∧
    (generateMockProof valueBytes publicKey).length = 64 ∧
    ∀ i < 64, (generateMockProof valueBytes publicKey).getD i 0 =
      (valueBytes ++ publicKey).getD (i % (valueBytes ++ publicKey).length) 0 ^^^
        (i &&& 0xFF) := by
  refine ⟨?_, by simp [generateMockProof], ?_⟩
  · unfold mockEncrypt
    rw [hv]
    rfl
  · intro i hi
    have hl : i < ((List.range 64).map fun i =>
        (valueBytes ++ publicKey).getD (i % (valueBytes ++ publicKey).length) 0 ^^^
          (i &&& 0xFF)).length := by
      simp [hi]
    simp only [generateMockProof]
    rw [List.getD_eq_getElem _ _ hl]
    simp

/-- Witness for claim C3 at a concrete input. -/
theorem claim3_witness :
    mockEncrypt (.num 5) .uint8 (List.replicate 32 7) = .ok
      { data := List.replicate 32 7 ++ [5]
        proof := generateMockProof [5] (List.replicate 32 7)
        type := .uint8 } ∧
    (generateMockProof [5] (List.replicate 32 7)).length = 64 ∧
    ∀ i < 64, (generateMockProof [5] (List.replicate 32 7)).getD i 0 =
      ([5] ++ List.replicate 32 7).getD (i % ([5] ++ List.replicate 32 7).length) 0 ^^^
        (i &&& 0xFF) :=
  claim3_mockEncrypt_shape (List.replicate 32 7) (.num 5) .uint8 [5] (by decide) (by rfl)

/-! ## Claim C5 -/

/-- Claim C5 (amended): encrypt does not invalidate the builder: the method
reads this.inputs and writes no field, so a second encrypt call on the same
builder receives the same state and succeeds with the same result (only an
empty accumulator errors). -/
theorem claim5_encrypt_again (b : EncryptedInputBuilder) (r : EncryptionResult)
    (h : b.encrypt = .ok r) : encryptTwice b = .ok r := by
  unfold encryptTwice
  rw [h]
  rfl

/-- Claim C5 as frozen fails on the code: on this one-input builder the
first encrypt succeeds and the second encrypt on the same builder (whose
state the method never mutates) succeeds as well instead of raising. -/
theorem claim5_counterexample :
    (((EncryptedInputBuilder.mk0 (List.replicate 32 7) "0xc" "0xu").add8 5).encrypt).isOk
        = true ∧
    (encryptTwice ((EncryptedInputBuilder.mk0 (List.replicate 32 7) "0xc" "0xu").add8 5)).isOk
        = true := by
  constructor <;> rfl

/-- Witness for the amended claim C5 at a concrete builder. -/
theorem claim5_witness :
    ∃ r, ((EncryptedInputBuilder.mk0 (List.replicate 32 7) "0xc" "0xu").add8 5).encrypt
        = .ok r ∧
      encryptTwice ((EncryptedInputBuilder.mk0 (List.replicate 32 7) "0xc" "0xu").add8 5)
        = .ok r :=
  ⟨_, rfl, claim5_encrypt_again _ _ rfl⟩

/-! ## Claim C6 -/

/-- Claim C6: for each unsigned width, an input outside the type range or not
an integer makes valueToBytes fail with the validation error of that width:
no byte list is ever produced for it (no clamping or coercion). -/
theorem claim6_range_rejection :
    (∀ q : ℚ, ¬(jsIsInteger q = true ∧ 0 ≤ q ∧ q ≤ 255) →
      valueToBytes (.num q) .uint8 =
        .error "Value must be an integer between 0 and 255 for uint8") ∧
    (∀ q : ℚ, ¬(jsIsInteger q = true ∧ 0 ≤ q ∧ q ≤ 65535) →
      valueToBytes (.num q) .uint16 =
        .error "Value must be an integer between 0 and 65535 for uint16") ∧
    (∀ q : ℚ, ¬(jsIsInteger q = true ∧ 0 ≤ q ∧ q ≤ 4294967295) →
      valueToBytes (.num q) .uint32 =
        .error "Value must be an integer between 0 and 2^32-1 for uint32") ∧
    (∀ i : ℤ, ¬(0 ≤ i ∧ i ≤ 18446744073709551615) →
      valueToBytes (.big i) .uint64 =
        .error "Value must be between 0 and 2^64-1 for uint64") := by
  refine ⟨fun q h => ?_, fun q h => ?_, fun q h => ?_, fun i h => ?_⟩
  · have hc : ¬ jsIsInteger q = true ∨ q < 0 ∨ 255 < q := by
      by_contra hc
      push_neg at hc
      exact h ⟨hc.1, hc.2.1, hc.2.2⟩
    show (do validateUint8 q; Except.ok [ratToNat q] : Except String (List Nat)) = _
    unfold validateUint8
    rw [if_pos hc]
    rfl
  · have hc : ¬ jsIsInteger q = true ∨ q < 0 ∨ 65535 < q := by
      by_contra hc
      push_neg at hc
      exact h ⟨hc.1, hc.2.1, hc.2.2⟩
    show (do validateUint16 q; Except.ok (uint16Bytes (ratToNat q)) :
      Except String (List Nat)) = _
    unfold validateUint16
    rw [if_pos hc]
    rfl
  · have hc : ¬ jsIsInteger q = true ∨ q < 0 ∨ 4294967295 < q := by
      by_contra hc
      push_neg at hc
      exact h ⟨hc.1, hc.2.1, hc.2.2⟩
    show (do validateUint32 q; Except.ok (uint32Bytes (ratToNat q)) :
      Except String (List Nat)) = _
    unfold validateUint32
    rw [if_pos hc]
    rfl
  · have hc : i < 0 ∨ 18446744073709551615 < i := by
      by_contra hc
      push_neg at hc
      exact h ⟨hc.1, hc.2⟩
    show (do validateUint64 i; Except.ok (uint64Bytes i.toNat) :
      Except String (List Nat)) = _
    unfold validateUint64
    rw [if_pos hc]
    rfl

/-- Witness for claim C6: the five boundary inputs of the spec all raise
their validation errors. -/
theorem claim6_witness :
    valueToBytes (.num 256) .uint8 =
      .error "Value must be an integer between 0 and 255 for uint8" ∧
    valueToBytes (.num (-1)) .uint8 =
      .error "Value must be an integer between 0 and 255 for uint8" ∧
    valueToBytes (.num 65536) .uint16 =
      .error "Value must be an integer between 0 and 65535 for uint16" ∧
    valueToBytes (.num 4294967296) .uint32 =
      .error "Value must be an integer between 0 and 2^32-1 for uint32" ∧
    valueToBytes (.big 18446744073709551616) .uint64 =
      .error "Value must be between 0 and 2^64-1 for uint64" :=
  ⟨claim6_range_rejection.1 256 (by decide),
    claim6_range_rejection.1 (-1) (by decide),
    claim6_range_rejection.2.1 65536 (by decide),
    claim6_range_rejection.2.2.1 4294967296 (by decide),
    claim6_range_rejection.2.2.2 18446744073709551616 (by decide)⟩

/-! ## Claim C9 -/

/-- Claim C9: each decode function rejects a buffer shorter than its type
width with the "Insufficient bytes" error for that type. -/
theorem claim9_insufficient_bytes :
    (∀ bytes : List Nat, bytes.length < 1 →
      bytesToUint8 bytes = .error "Insufficient bytes for uint8") ∧
    (∀ bytes : List Nat, bytes.length < 2 →
      bytesToUint16 bytes = .error "Insufficient bytes for uint16") ∧
    (∀ bytes : List Nat, bytes.length < 4 →
      bytesToUint32 bytes = .error "Insufficient bytes for uint32") ∧
    (∀ bytes : List Nat, bytes.length < 8 →
      bytesToUint64 bytes = .error "Insufficient bytes for uint64") ∧
    (∀ bytes : List Nat, bytes.length < 1 →
      bytesToBool bytes = .error "Insufficient bytes for bool") ∧
    (∀ bytes : List Nat, bytes.length < 20 →
      bytesToAddress bytes = .error "Insufficient bytes for address") := by
  refine ⟨fun bytes h => ?_, fun bytes h => ?_, fun bytes h => ?_,
    fun bytes h => ?_, fun bytes h => ?_, fun bytes h => ?_⟩ <;>
    simp [bytesToUint8, bytesToUint16, bytesToUint32, bytesToUint64,
      bytesToBool, bytesToAddress, h]

/-- Witness for claim C9 at concrete short buffers. -/
theorem claim9_witness :
    bytesToUint8 [] = .error "Insufficient bytes for uint8" ∧
    bytesToUint16 [1] = .error "Insufficient bytes for uint16" ∧
    bytesToUint32 [1, 2, 3] = .error "Insufficient bytes for uint32" ∧
    bytesToUint64 [1, 2, 3, 4, 5, 6, 7] = .error "Insufficient bytes for uint64" ∧
    bytesToBool [] = .error "Insufficient bytes for bool" ∧
    bytesToAddress (List.replicate 19 0) = .error "Insufficient bytes for address" :=
  ⟨claim9_insufficient_bytes.1 [] (by decide),
    claim9_insufficient_bytes.2.1 [1] (by decide),
    claim9_insufficient_bytes.2.2.1 [1, 2, 3] (by decide),
    claim9_insufficient_bytes.2.2.2.1 [1, 2, 3, 4, 5, 6, 7] (by decide),
    claim9_insufficient_bytes.2.2.2.2.1 [] (by decide),
    claim9_insufficient_bytes.2.2.2.2.2 (List.replicate 19 0) (by decide)⟩

/-! ## mapM helpers -/

theorem error_ne_ok {ε β : Type} {e : ε} {b : β} :
    (Except.error e : Except ε β) ≠ .ok b := fun h => Except.noConfusion h

theorem mapM_ok_of_all {α β : Type} {f : α → Except String β} :
    ∀ l : List α, (∀ a ∈ l, (f a).isOk = true) →
      ∃ bs, l.mapM f = .ok bs ∧ List.Forall₂ (fun a b => f a = .ok b) l bs := by
  intro l
  induction l with
  | nil => exact fun _ => ⟨[], rfl, List.Forall₂.nil⟩
  | cons a t ih =>
    intro h
    have ha := h a (by simp)
    obtain ⟨b, hb⟩ : ∃ b, f a = .ok b := by
      cases hfa : f a with
      | ok b => exact ⟨b, rfl⟩
      | error e => rw [hfa] at ha; simp [Except.isOk, Except.toBool] at ha
    obtain ⟨bs, hbs, hf⟩ := ih fun x hx => h x (by simp [hx])
    refine ⟨b :: bs, ?_, List.Forall₂.cons hb hf⟩
    rw [List.mapM_cons, hb, hbs]
    rfl

theorem mapM_ok_iff {α β : Type} {f : α → Except String β} :
    ∀ {l : List α} {bs : List β}, l.mapM f = .ok bs ↔
      List.Forall₂ (fun a b => f a = .ok b) l bs := by
  intro l
  induction l with
  | nil =>
    intro bs
    constructor
    · intro h
      rw [List.mapM_nil] at h
      have hbs : ([] : List β) = bs :=
        Except.ok.inj (show Except.ok ([] : List β) = Except.ok bs from h)
      rw [← hbs]
      exact List.Forall₂.nil
    · intro h
      cases h
      rfl
  | cons a t ih =>
    intro bs
    constructor
    · intro h
      rw [List.mapM_cons] at h
      cases hfa : f a with
      | error e =>
        rw [hfa] at h
        exact absurd (show Except.error e = Except.ok bs from h) error_ne_ok
      | ok b =>
        rw [hfa] at h
        cases hmt : t.mapM f with
        | error e =>
          rw [hmt] at h
          exact absurd (show Except.error e = Except.ok bs from h) error_ne_ok
        | ok bs2 =>
          rw [hmt] at h
          have hbs : b :: bs2 = bs :=
            Except.ok.inj (show Except.ok (b :: bs2) = Except.ok bs from h)
          rw [← hbs]
          exact List.Forall₂.cons hfa (ih.mp hmt)
    · intro h
      cases h with
      | cons hab hf =>
        rw [List.mapM_cons, hab, ih.mpr hf]
        rfl

theorem mapM_fail {α β : Type} {f : α → Except String β} :
    ∀ {l : List α}, (∃ a ∈ l, (f a).isOk = false) → (l.mapM f).isOk = false := by
  intro l
  induction l with
  | nil => rintro ⟨a, ha, _⟩; simp at ha
  | cons a t ih =>
    rintro ⟨x, hx, hfx⟩
    rw [List.mapM_cons]
    rcases List.mem_cons.mp hx with heq | hxt
    · subst heq
      cases hfa : f x with
      | error e => rfl
      | ok b => rw [hfa] at hfx; simp [Except.isOk, Except.toBool] at hfx
    · cases hfa : f a with
      | error e => rfl
      | ok b =>
        have := ih ⟨x, hxt, hfx⟩
        cases hmt : t.mapM f with
        | error e => rfl
        | ok bs => rw [hmt] at this; simp [Except.isOk, Except.toBool] at this

/-! ## Claim C2 -/

theorem mockEncrypt_ok_struct {v : JsValue} {t : EncryptedType} {pk : List Nat}
    {r : EncryptionResult} (h : mockEncrypt v t pk = .ok r) :
    ∃ vb, valueToBytes v t = .ok vb ∧ r.data = pk ++ vb ∧ r.proof.length = 64 := by
  unfold mockEncrypt at h
  cases hvb : valueToBytes v t with
  | error e =>
    rw [hvb] at h
    exact absurd (show Except.error e = Except.ok r from h) error_ne_ok
  | ok vb =>
    rw [hvb] at h
    have hr : ({ data := pk ++ vb
                 proof := generateMockProof vb pk
                 type := t } : EncryptionResult) = r :=
      Except.ok.inj (show _ = Except.ok r from h)
    refine ⟨vb, rfl, ?_, ?_⟩ <;> rw [← hr] <;> simp [generateMockProof]

theorem flatten_len_of_forall2 {pk : List Nat} :
    ∀ {ps : List (JsValue × EncryptedType)} {rs : List EncryptionResult},
      List.Forall₂ (fun p r => mockEncrypt p.1 p.2 pk = .ok r) ps rs →
      (rs.flatMap fun r => r.proof).length = 64 * rs.length := by
  intro ps rs h
  induction h with
  | nil => simp
  | cons hab _ ih =>
    obtain ⟨_, _, _, hlen⟩ := mockEncrypt_ok_struct hab
    simp [ih, hlen]
    omega

/-- Claim C2: encrypt on an empty builder raises the "no inputs" error; on a
builder with n legal accumulated pairs it returns n handles, the i-th being
the hexlification of the mock-encrypted data of the i-th pair in insertion
order, an inputProof that is the concatenation of the n 64-byte proofs in
order (length 64 n), and the type of the first accumulated pair. -/
theorem claim2_builder_encrypt (b : EncryptedInputBuilder) :
    (b.inputs = [] → b.encrypt = .error "No inputs to encrypt") ∧
    (∀ v0 t0 rest, b.inputs = (v0, t0) :: rest →
      (∀ p ∈ b.inputs, (valueToBytes p.1 p.2).isOk = true) →
      ∃ rs : List EncryptionResult,
        List.Forall₂ (fun p r => mockEncrypt p.1 p.2 b.publicKey = .ok r) b.inputs rs ∧
        b.encrypt = .ok { data := []
                          proof := rs.flatMap fun r => r.proof
                          type := t0
                          handles := some (rs.map fun r => hexlify r.data)
                          inputProof := some (rs.flatMap fun r => r.proof) } ∧
        (rs.map fun r => hexlify r.data).length = b.inputs.length ∧
        (rs.flatMap fun r => r.proof).length = 64 * b.inputs.length) := by
  constructor
  · intro h
    unfold EncryptedInputBuilder.encrypt
    rw [h]
  · intro v0 t0 rest hin hall
    have hok : ∀ p ∈ b.inputs, (mockEncrypt p.1 p.2 b.publicKey).isOk = true := by
      intro p hp
      have hv := hall p hp
      cases hvb : valueToBytes p.1 p.2 with
      | error e => rw [hvb] at hv; simp [Except.isOk, Except.toBool] at hv
      | ok vb =>
        unfold mockEncrypt
        rw [hvb]
        rfl
    obtain ⟨rs, hrs, hf⟩ := mapM_ok_of_all b.inputs hok
    have hlenrs : b.inputs.length = rs.length := hf.length_eq
    refine ⟨rs, hf, ?_, by simp [hlenrs], by rw [flatten_len_of_forall2 hf, hlenrs]⟩
    unfold EncryptedInputBuilder.encrypt
    rw [hin] at hrs ⊢
    rw [hrs]
    rfl

/-- Witness for claim C2 at the concrete builder of the spec example,
add8(5).add32(1000).addBool(true), and at the empty builder. -/
theorem claim2_witness :
    ((EncryptedInputBuilder.mk0 (List.replicate 32 7) "0xc" "0xu").encrypt
        = .error "No inputs to encrypt") ∧
    ∃ rs : List EncryptionResult,
      List.Forall₂ (fun p r => mockEncrypt p.1 p.2 (List.replicate 32 7) = .ok r)
        [((.num 5 : JsValue), EncryptedType.uint8), (.num 1000, .uint32),
          (.boolean true, .bool)] rs ∧
      (((EncryptedInputBuilder.mk0 (List.replicate 32 7) "0xc" "0xu").add8 5
          |>.add32 1000 |>.addBool true).encrypt)
        = .ok { data := []
                proof := rs.flatMap fun r => r.proof
                type := .uint8
                handles := some (rs.map fun r => hexlify r.data)
                inputProof := some (rs.flatMap fun r => r.proof) } ∧
      (rs.map fun r => hexlify r.data).length = 3 ∧
      (rs.flatMap fun r => r.proof).length = 64 * 3 := by
  constructor
  · exact (claim2_builder_encrypt _).1 rfl
  · obtain ⟨rs, hf, henc, hl1, hl2⟩ := (claim2_builder_encrypt
      ((EncryptedInputBuilder.mk0 (List.replicate 32 7) "0xc" "0xu").add8 5
        |>.add32 1000 |>.addBool true)).2 (.num 5) .uint8
      [(.num 1000, .uint32), (.boolean true, .bool)] rfl (by decide)
    exact ⟨rs, hf, henc, hl1, hl2⟩

/-! ## Claim C8 -/

/-- Claim C8: batchDecrypt raises the length-mismatch error whenever the two
sequences differ in length, whatever the handles hold; with equal lengths the
result is exactly the elementwise decode of each handle at its declared type
(fail-fast: the batch result is ok iff every element decodes, and any failing
element makes the whole call fail). -/
theorem claim8_batchDecrypt (handles : List EncHandle) (types : List EncryptedType)
    (publicKeyLength : Nat) :
    (handles.length ≠ types.length →
      batchDecrypt handles types publicKeyLength =
        .error "Handles and types arrays must have same length") ∧
    (handles.length = types.length →
      (∀ vs, batchDecrypt handles types publicKeyLength = .ok vs ↔
        List.Forall₂ (fun p v => mockDecrypt p.1 p.2 publicKeyLength = .ok v)
          (handles.zip types) vs) ∧
      ((∃ p ∈ handles.zip types, (mockDecrypt p.1 p.2 publicKeyLength).isOk = false) →
        (batchDecrypt handles types publicKeyLength).isOk = false)) := by
  constructor
  · intro h
    unfold batchDecrypt
    rw [if_pos h]
  · intro h
    have hne : ¬ handles.length ≠ types.length := fun hc => hc h
    constructor
    · intro vs
      unfold batchDecrypt
      rw [if_neg hne]
      exact mapM_ok_iff
    · intro hex
      unfold batchDecrypt
      rw [if_neg hne]
      exact mapM_fail hex

/-- Witness for claim C8: a two-element batch decodes elementwise, and the
mismatched-length call returns the length error even though its handle is
decodable. -/
theorem claim8_witness :
    batchDecrypt [.bytes (List.replicate 32 0 ++ [7]),
        .bytes (List.replicate 32 0 ++ [1, 2, 3, 4])] [.uint8, .uint32] 32
      = .ok [.num 7, .num 67305985] ∧
    batchDecrypt [.bytes (List.replicate 32 0 ++ [7])] [.uint8, .uint32] 32
      = .error "Handles and types arrays must have same length" ∧
    (batchDecrypt [.bytes (List.replicate 32 0 ++ [7]), .bytes [1]]
      [.uint8, .uint32] 32).isOk = false := by
  refine ⟨?_, ?_, ?_⟩
  · exact (((claim8_batchDecrypt _ _ 32).2 rfl).1 _).mpr
      (List.Forall₂.cons (by rfl) (List.Forall₂.cons (by rfl) List.Forall₂.nil))
  · exact (claim8_batchDecrypt _ _ 32).1 (by decide)
  · exact ((claim8_batchDecrypt _ _ 32).2 rfl).2
      ⟨(.bytes [1], .uint32), by decide, by rfl⟩

/-! ## Claim C7 -/

/-- Claim C7: verifyDecryptionSignature is a total boolean function; it
returns false on a missing signature, on a malformed signature string (which
makes recovery throw, caught inside), and whenever the recovered address does
not match the expected signer case-insensitively. -/
theorem claim7_verify_never_throws (request : DecryptionRequest) (expectedSigner : String) :
    (request.signature = none → verifyDecryptionSignature request expectedSigner = false) ∧
    (∀ g, request.signature = some (.garbage g) →
      verifyDecryptionSignature request expectedSigner = false) ∧
    (∀ p a, request.signature = some (.eip712 p a) →
      lowerStr (if p = requestPayload request 1 then a else altRecover p a) ≠
        lowerStr expectedSigner →
      verifyDecryptionSignature request expectedSigner = false) := by
  refine ⟨fun h => ?_, fun g h => ?_, fun p a h hne => ?_⟩
  · unfold verifyDecryptionSignature
    rw [h]
  · unfold verifyDecryptionSignature
    rw [h]
    rfl
  · unfold verifyDecryptionSignature
    rw [h]
    show (lowerStr (if p = requestPayload request 1 then a else altRecover p a)
        == lowerStr expectedSigner) = false
    exact beq_eq_false_iff_ne.mpr hne

/-- Witness for claim C7 on a concrete request: missing signature, garbage
signature, and a valid signature from a different signer all verify false. -/
theorem claim7_witness :
    verifyDecryptionSignature
      { handle := .hexStr "0xab", contractAddress := "0xc", userAddress := "0xu"
        signature := none } "0xaaaaaaaaaaaaaaaaaaaaaaaaaaaaaaaaaaaaaaaa" = false ∧
    verifyDecryptionSignature
      { handle := .hexStr "0xab", contractAddress := "0xc", userAddress := "0xu"
        signature := some (.garbage "not-a-signature") }
      "0xaaaaaaaaaaaaaaaaaaaaaaaaaaaaaaaaaaaaaaaa" = false ∧
    verifyDecryptionSignature
      { handle := .hexStr "0xab", contractAddress := "0xc", userAddress := "0xu"
        signature := some (.eip712 (requestPayload
          { handle := .hexStr "0xab", contractAddress := "0xc", userAddress := "0xu"
            signature := none } 1) "0xbbbbbbbbbbbbbbbbbbbbbbbbbbbbbbbbbbbbbbbb") }
      "0xaaaaaaaaaaaaaaaaaaaaaaaaaaaaaaaaaaaaaaaa" = false := by
  refine ⟨?_, ?_, ?_⟩
  · exact (claim7_verify_never_throws _ _).1 rfl
  · exact (claim7_verify_never_throws _ _).2.1 "not-a-signature" rfl
  · exact (claim7_verify_never_throws _ _).2.2 _ _ rfl (by decide)

/-! ## Claim C4 -/

theorem verify_some (req : DecryptionRequest) (sig : MockSig) (exp : String) :
    verifyDecryptionSignature { req with signature := some sig } exp =
      (match mockVerifyTypedData (requestPayload req 1) sig with
        | .error _ => false
        | .ok recovered => lowerStr recovered == lowerStr exp) := rfl

set_option maxRecDepth 100000 in
/-- Claim C4 as frozen fails on the code: a signer whose provider reports
chain id 2 signs the EIP-712 payload over a domain with chain id 2, while
verifyDecryptionSignature rebuilds the domain with its hardcoded chain id 1;
the recovered address differs from the signer and verification of the
signer's own signature against the signer's own address returns false. -/
theorem claim4_counterexample :
    verifyDecryptionSignature
      { handle := .hexStr "0xab", contractAddress := "0xc", userAddress := "0xu"
        signature := some (createDecryptionSignature
          { handle := .hexStr "0xab", contractAddress := "0xc", userAddress := "0xu" }
          { address := "0x1111111111111111111111111111111111111111"
            providerChainId := some 2 }) }
      "0x1111111111111111111111111111111111111111" = false := by
  decide

/-- Claim C4 (amended): the authorization round trip holds when the signer's
provider reports chain id 1 or none (then signing uses the same chain id 1
the verifier hardcodes): verification of the signed request against the
signer's address returns true; against any address that differs
case-insensitively it returns false; and a corrupted signature string
returns false without raising. -/
theorem claim4_auth_roundtrip (request : DecryptionRequest) (signer : MockSigner)
    (hc : signer.providerChainId = none ∨ signer.providerChainId = some 1) :
    verifyDecryptionSignature
      { request with signature := some (createDecryptionSignature request signer) }
      signer.address = true ∧
    (∀ other, lowerStr other ≠ lowerStr signer.address →
      verifyDecryptionSignature
        { request with signature := some (createDecryptionSignature request signer) }
        other = false) ∧
    (∀ g, verifyDecryptionSignature { request with signature := some (.garbage g) }
      signer.address = false) := by
  have hsig : createDecryptionSignature request signer =
      .eip712 (requestPayload request 1) signer.address := by
    unfold createDecryptionSignature
    rcases hc with h | h <;> rw [h]
    all_goals rfl
  refine ⟨?_, fun other hne => ?_, fun g => ?_⟩
  · rw [verify_some, hsig]
    show (lowerStr (if requestPayload request 1 = requestPayload request 1
      then signer.address else altRecover (requestPayload request 1) signer.address)
        == lowerStr signer.address) = true
    rw [if_pos rfl]
    exact beq_self_eq_true _
  · rw [verify_some, hsig]
    show (lowerStr (if requestPayload request 1 = requestPayload request 1
      then signer.address else altRecover (requestPayload request 1) signer.address)
        == lowerStr other) = false
    rw [if_pos rfl]
    exact beq_eq_false_iff_ne.mpr fun hcon => hne hcon.symm
  · rw [verify_some]
    rfl

/-- Witness for the amended claim C4 at a concrete request and signer. -/
theorem claim4_witness :
    verifyDecryptionSignature
      { handle := .hexStr "0xab", contractAddress := "0xc", userAddress := "0xu"
        signature := some (createDecryptionSignature
          { handle := .hexStr "0xab", contractAddress := "0xc", userAddress := "0xu" }
          { address := "0x1111111111111111111111111111111111111111" }) }
      "0x1111111111111111111111111111111111111111" = true ∧
    verifyDecryptionSignature
      { handle := .hexStr "0xab", contractAddress := "0xc", userAddress := "0xu"
        signature := some (createDecryptionSignature
          { handle := .hexStr "0xab", contractAddress := "0xc", userAddress := "0xu" }
          { address := "0x1111111111111111111111111111111111111111" }) }
      "0x2222222222222222222222222222222222222222" = false ∧
    verifyDecryptionSignature
      { handle := .hexStr "0xab", contractAddress := "0xc", userAddress := "0xu"
        signature := some (.garbage "corrupted") }
      "0x1111111111111111111111111111111111111111" = false := by
  obtain ⟨h1, h2, h3⟩ := claim4_auth_roundtrip
    { handle := .hexStr "0xab", contractAddress := "0xc", userAddress := "0xu" }
    { address := "0x1111111111111111111111111111111111111111" } (Or.inl rfl)
  exact ⟨h1, h2 "0x2222222222222222222222222222222222222222" (by decide), h3 "corrupted"⟩

/-! ## Claim C10 -/

theorem getD_append_left {l l2 : List Nat} {n d : Nat} (h : n < l.length) :
    (l ++ l2).getD n d = l.getD n d := by
  rw [List.getD_eq_getElem?_getD, List.getD_eq_getElem?_getD, List.getElem?_append,
    if_pos h]

theorem length_flatMap_byteHex (l : List Nat) : (l.flatMap byteHex).length = 2 * l.length := by
  induction l with
  | nil => simp
  | cons a t ih => simp [byteHex, ih]; omega

theorem flatMap_byteHex_canonical (l : List Nat) :
    ∀ c ∈ l.flatMap byteHex, c ∈ hexChars ∧ hexCanon c = c := by
  intro c hc
  obtain ⟨x, hx, hcx⟩ := List.mem_flatMap.mp hc
  have hor : c = hexDigit (x / 16 % 16) ∨ c = hexDigit (x % 16) := by
    simpa [byteHex] using hcx
  rcases hor with h | h <;> rw [h]
  · have hf := hexDigit_facts (x / 16 % 16) (by omega)
    exact ⟨mem_hexChars hf.1, hf.2.2.2.1⟩
  · have hf := hexDigit_facts (x % 16) (by omega)
    exact ⟨mem_hexChars hf.1, hf.2.2.2.1⟩

theorem bytesToAddress_ok {b : List Nat} (h : 20 ≤ b.length) :
    bytesToAddress b =
      .ok ("0x" ++ String.mk (checksumBody ((b.take 20).flatMap byteHex))) := by
  have hlen : ((b.take 20).flatMap byteHex).length = 40 := by
    rw [length_flatMap_byteHex, List.length_take]
    omega
  unfold bytesToAddress
  rw [if_neg (by omega)]
  exact getAddress_of_canonical hlen
    (fun c hc => (flatMap_byteHex_canonical _ c hc).1)
    (fun c hc => (flatMap_byteHex_canonical _ c hc).2)

/-- Claim C10: every decode function succeeds on a buffer at least as long as
its type's width, and its result depends only on the first width bytes:
appending any suffix leaves the decoded value unchanged. -/
theorem claim10_extra_bytes (b ext : List Nat) :
    (1 ≤ b.length → (bytesToUint8 b).isOk = true ∧
      bytesToUint8 (b ++ ext) = bytesToUint8 b) ∧
    (2 ≤ b.length → (bytesToUint16 b).isOk = true ∧
      bytesToUint16 (b ++ ext) = bytesToUint16 b) ∧
    (4 ≤ b.length → (bytesToUint32 b).isOk = true ∧
      bytesToUint32 (b ++ ext) = bytesToUint32 b) ∧
    (8 ≤ b.length → (bytesToUint64 b).isOk = true ∧
      bytesToUint64 (b ++ ext) = bytesToUint64 b) ∧
    (1 ≤ b.length → (bytesToBool b).isOk = true ∧
      bytesToBool (b ++ ext) = bytesToBool b) ∧
    (20 ≤ b.length → (bytesToAddress b).isOk = true ∧
      bytesToAddress (b ++ ext) = bytesToAddress b) := by
  have hla : (b ++ ext).length = b.length + ext.length := List.length_append b ext
  refine ⟨fun h8 => ⟨?_, ?_⟩, fun h16 => ⟨?_, ?_⟩, fun h32 => ⟨?_, ?_⟩,
    fun h64 => ⟨?_, ?_⟩, fun hb1 => ⟨?_, ?_⟩, fun h20 => ⟨?_, ?_⟩⟩
  · unfold bytesToUint8
    rw [if_neg (by omega)]
    rfl
  · unfold bytesToUint8
    rw [if_neg (by omega), if_neg (by omega), getD_append_left (by omega)]
  · unfold bytesToUint16
    rw [if_neg (by omega)]
    rfl
  · unfold bytesToUint16
    rw [if_neg (by omega), if_neg (by omega), getD_append_left (by omega),
      getD_append_left (by omega)]
  · unfold bytesToUint32
    rw [if_neg (by omega)]
    rfl
  · unfold bytesToUint32
    rw [if_neg (by omega), if_neg (by omega), getD_append_left (by omega),
      getD_append_left (by omega), getD_append_left (by omega), getD_append_left (by omega)]
  · unfold bytesToUint64
    rw [if_neg (by omega)]
    rfl
  · unfold bytesToUint64
    rw [if_neg (by omega), if_neg (by omega), getD_append_left (by omega),
      getD_append_left (by omega), getD_append_left (by omega), getD_append_left (by omega),
      getD_append_left (by omega), getD_append_left (by omega), getD_append_left (by omega),
      getD_append_left (by omega)]
  · unfold bytesToBool
    rw [if_neg (by omega)]
    rfl
  · unfold bytesToBool
    rw [if_neg (by omega), if_neg (by omega), getD_append_left (by omega)]
  · rw [bytesToAddress_ok h20]
    rfl
  · rw [bytesToAddress_ok h20, bytesToAddress_ok (by omega),
      List.take_append_of_le_length h20]

/-- Witness for claim C10 at a concrete 20-byte buffer and suffix. -/
theorem claim10_witness :
    ((bytesToUint8 (List.range 20)).isOk = true ∧
      bytesToUint8 (List.range 20 ++ [9, 9]) = bytesToUint8 (List.range 20)) ∧
    ((bytesToUint16 (List.range 20)).isOk = true ∧
      bytesToUint16 (List.range 20 ++ [9, 9]) = bytesToUint16 (List.range 20)) ∧
    ((bytesToUint32 (List.range 20)).isOk = true ∧
      bytesToUint32 (List.range 20 ++ [9, 9]) = bytesToUint32 (List.range 20)) ∧
    ((bytesToUint64 (List.range 20)).isOk = true ∧
      bytesToUint64 (List.range 20 ++ [9, 9]) = bytesToUint64 (List.range 20)) ∧
    ((bytesToBool (List.range 20)).isOk = true ∧
      bytesToBool (List.range 20 ++ [9, 9]) = bytesToBool (List.range 20)) ∧
    ((bytesToAddress (List.range 20)).isOk = true ∧
      bytesToAddress (List.range 20 ++ [9, 9]) = bytesToAddress (List.range 20)) := by
  obtain ⟨h1, h2, h3, h4, h5, h6⟩ := claim10_extra_bytes (List.range 20) [9, 9]
  exact ⟨h1 (by decide), h2 (by decide), h3 (by decide), h4 (by decide),
    h5 (by decide), h6 (by decide)⟩
